import Mathlib

/-!
Verification of the explanation-enrichment pipeline of `app.py`
(the `/api/explain` endpoint and its helpers).

Strings are modelled as `List Char`.  The Python regex machinery used by
`clean_html_response` (re.search with a lazy `(.*?)` group under DOTALL)
is embedded directly: `begins` is a literal-prefix test, `extractUpTo`
captures the lazy group up to the FIRST occurrence of the closing
delimiter, and `fenceSearch` scans for the leftmost start position at
which the whole pattern matches.
-/

/-- Character list of a string literal. -/
def strLit (s : String) : List Char := s.data

/-- The backtick character (code 96), used by the markdown fences. -/
def btick : Char := Char.ofNat 96

/-- The single-quote character (code 39), used inside the model prompt. -/
def squote : Char := Char.ofNat 39

/-- Does the pattern (first argument) stand at the very start of the text? -/
def begins : List Char → List Char → Bool
  | [], _ => true
  | _ :: _, [] => false
  | p :: ps, c :: cs => p == c && begins ps cs

/-- Does the pattern occur anywhere in the text (as a contiguous run)? -/
def occursIn (pat : List Char) : List Char → Bool
  | [] => begins pat []
  | c :: rest => begins pat (c :: rest) || occursIn pat rest

/-- Lazy capture: the characters before the FIRST occurrence of `close`,
or `none` when `close` never occurs.  This is the semantics of the
non-greedy group `(.*?)` followed by the literal `close` under DOTALL. -/
def extractUpTo (close : List Char) : List Char → Option (List Char)
  | [] => if begins close [] then some [] else none
  | c :: rest =>
    if begins close (c :: rest) then some []
    else (extractUpTo close rest).map (fun content => c :: content)

/-- `re.search` for the pattern `opening (.*?) close`: try each start
position left to right; at a position where `opening` stands, the match
succeeds iff `close` occurs afterwards, capturing the lazy group. -/
def fenceSearch (opening close : List Char) : List Char → Option (List Char)
  | [] => if begins opening [] then extractUpTo close (List.drop opening.length []) else none
  | c :: rest =>
    if begins opening (c :: rest) then
      match extractUpTo close (List.drop opening.length (c :: rest)) with
      | some content => some content
      | none => fenceSearch opening close rest
    else fenceSearch opening close rest

/-- Opening delimiter of the fenced html block in the regex of
`clean_html_response`. -/
def htmlOpen : List Char := strLit "```html\n"

/-- Opening delimiter of the fenced json block. -/
def jsonOpen : List Char := strLit "```json\n"

/-- Closing delimiter shared by both fences. -/
def closeMark : List Char := strLit "\n```"

/-- Python whitespace characters removed by `str.strip()`. -/
def isPySpace (c : Char) : Bool :=
  c == ' ' || c == '\t' || c == '\n' || c == '\r' || c == '\x0b' || c == '\x0c'

/-- Python `str.strip()`: drop whitespace at both ends. -/
def pyStrip (s : List Char) : List Char :=
  ((s.dropWhile isPySpace).reverse.dropWhile isPySpace).reverse

/-- `clean_html_response` from app.py: extract the html fence payload if
present, else the json fence payload, else return the text unchanged. -/
def clean_html_response (text : List Char) : List Char :=
  match fenceSearch htmlOpen closeMark text with
  | some content => pyStrip content
  | none =>
    match fenceSearch jsonOpen closeMark text with
    | some content => pyStrip content
    | none => text

/-! ### Basic facts about `begins` and `occursIn` -/

theorem begins_self (p r : List Char) : begins p (p ++ r) = true := by
  induction p with
  | nil => rfl
  | cons c cs ih => simp [begins, ih]

theorem begins_fits {p a : List Char} (b : List Char) (h : begins p a = true) :
    begins p (a ++ b) = true := by
  induction p generalizing a with
  | nil => rfl
  | cons x xs ih =>
    cases a with
    | nil => exact absurd h (by simp [begins])
    | cons c cs =>
      simp only [begins, Bool.and_eq_true, beq_iff_eq] at h
      simp [begins, h.1, ih h.2]

theorem begins_split {p s : List Char} (h : begins p s = true) :
    ∃ r, s = p ++ r := by
  induction p generalizing s with
  | nil => exact ⟨s, rfl⟩
  | cons x xs ih =>
    cases s with
    | nil => exact absurd h (by simp [begins])
    | cons c cs =>
      simp only [begins, Bool.and_eq_true, beq_iff_eq] at h
      obtain ⟨r, hr⟩ := ih h.2
      exact ⟨r, by simp [h.1, hr]⟩

theorem occurs_of_begins {pat s : List Char} (h : begins pat s = true) :
    occursIn pat s = true := by
  cases s with
  | nil => exact h
  | cons c cs => simp [occursIn, h]

theorem occurs_tail_false {pat : List Char} {c : Char} {rest : List Char}
    (h : occursIn pat (c :: rest) = false) : occursIn pat rest = false := by
  simp only [occursIn, Bool.or_eq_false_iff] at h
  exact h.2

theorem occurs_drop_false {pat s : List Char} (h : occursIn pat s = false) :
    ∀ n, occursIn pat (s.drop n) = false := by
  induction s with
  | nil => intro n; cases n <;> exact h
  | cons c cs ih =>
    intro n
    cases n with
    | zero => exact h
    | succ m => exact ih (occurs_tail_false h) m

theorem occurs_append_right_false {pat a b : List Char}
    (h : occursIn pat (a ++ b) = false) : occursIn pat b = false := by
  induction a with
  | nil => exact h
  | cons c cs ih => exact ih (occurs_tail_false h)

theorem occurs_append_left_true {pat a : List Char} (b : List Char)
    (h : occursIn pat a = true) : occursIn pat (a ++ b) = true := by
  induction a with
  | nil =>
    have hp : begins pat [] = true := h
    have : pat = [] := by
      cases pat with
      | nil => rfl
      | cons x xs => exact absurd hp (by simp [begins])
    subst this
    exact occurs_of_begins rfl
  | cons c cs ih =>
    simp only [occursIn, Bool.or_eq_true] at h
    cases h with
    | inl hb =>
      have : begins pat ((c :: cs) ++ b) = true := begins_fits b hb
      simp only [List.cons_append] at this ⊢
      simp [occursIn, this]
    | inr ho =>
      simp only [List.cons_append]
      simp [occursIn, ih ho]

theorem occurs_append_right_true {pat : List Char} (a : List Char) {b : List Char}
    (h : occursIn pat b = true) : occursIn pat (a ++ b) = true := by
  induction a with
  | nil => exact h
  | cons c cs ih => simp [occursIn, ih]

theorem occurs_append_left_false {pat a b : List Char}
    (h : occursIn pat (a ++ b) = false) : occursIn pat a = false := by
  by_contra hc
  have : occursIn pat a = true := by
    cases ht : occursIn pat a with
    | false => exact absurd ht hc
    | true => rfl
  rw [occurs_append_left_true b this] at h
  exact absurd h (by simp)

/-! ### Facts about `extractUpTo` and `fenceSearch` -/

theorem extractUpTo_of_begins {close s : List Char} (h : begins close s = true) :
    extractUpTo close s = some [] := by
  cases s with
  | nil => simp [extractUpTo, h]
  | cons c cs => simp [extractUpTo, h]

theorem extractUpTo_split {close : List Char} (hne : close ≠ []) :
    ∀ {s content : List Char}, extractUpTo close s = some content →
    ∃ r, s = content ++ close ++ r := by
  intro s
  induction s with
  | nil =>
    intro content h
    have hb : begins close [] = false := by
      cases close with
      | nil => exact absurd rfl hne
      | cons x xs => simp [begins]
    simp [extractUpTo, hb] at h
  | cons c rest ih =>
    intro content h
    by_cases hb : begins close (c :: rest) = true
    · obtain ⟨r, hr⟩ := begins_split hb
      have : content = [] := by
        simp [extractUpTo, hb] at h
        exact h
      subst this
      exact ⟨r, by simpa using hr⟩
    · have hb' : begins close (c :: rest) = false := by
        cases hx : begins close (c :: rest) with
        | false => rfl
        | true => exact absurd hx hb
      simp only [extractUpTo, hb', if_false, Bool.false_eq_true, Option.map_eq_some'] at h
      obtain ⟨content', hc', hcc⟩ := h
      obtain ⟨r, hr⟩ := ih hc'
      exact ⟨r, by simp [← hcc, hr]⟩

theorem extractUpTo_no_close {close : List Char} (hne : close ≠ []) :
    ∀ {s content : List Char}, extractUpTo close s = some content →
    occursIn close content = false := by
  intro s
  induction s with
  | nil =>
    intro content h
    have hb : begins close [] = false := by
      cases close with
      | nil => exact absurd rfl hne
      | cons x xs => simp [begins]
    simp [extractUpTo, hb] at h
  | cons c rest ih =>
    intro content h
    by_cases hb : begins close (c :: rest) = true
    · have : content = [] := by
        simp [extractUpTo, hb] at h
        exact h
      subst this
      cases close with
      | nil => exact absurd rfl hne
      | cons x xs => simp [occursIn, begins]
    · have hb' : begins close (c :: rest) = false := by
        cases hx : begins close (c :: rest) with
        | false => rfl
        | true => exact absurd hx hb
      simp only [extractUpTo, hb', if_false, Bool.false_eq_true, Option.map_eq_some'] at h
      obtain ⟨content', hc', hcc⟩ := h
      subst hcc
      have htail : occursIn close content' = false := ih hc'
      have hhead : begins close (c :: content') = false := by
        cases hx : begins close (c :: content') with
        | false => rfl
        | true =>
          obtain ⟨r, hr⟩ := extractUpTo_split hne hc'
          have : begins close ((c :: content') ++ (close ++ r)) = true :=
            begins_fits (close ++ r) hx
          rw [show (c :: content') ++ (close ++ r) = c :: rest by
                simp [hr]] at this
          exact absurd this (by simp [hb'])
      simp [occursIn, hhead, htail]

theorem fenceSearch_some_no_close (opening : List Char) {close : List Char}
    (hne : close ≠ []) :
    ∀ {s content : List Char}, fenceSearch opening close s = some content →
    occursIn close content = false := by
  intro s
  induction s with
  | nil =>
    intro content h
    by_cases hb : begins opening [] = true
    · simp only [fenceSearch, hb, if_true] at h
      exact extractUpTo_no_close hne h
    · have hb' : begins opening [] = false := by
        cases hx : begins opening [] with
        | false => rfl
        | true => exact absurd hx hb
      simp [fenceSearch, hb'] at h
  | cons c rest ih =>
    intro content h
    by_cases hb : begins opening (c :: rest) = true
    · simp only [fenceSearch, hb, if_true] at h
      cases hx : extractUpTo close (List.drop opening.length (c :: rest)) with
      | some content' =>
        rw [hx] at h
        simp only at h
        cases h
        exact extractUpTo_no_close hne hx
      | none =>
        rw [hx] at h
        simp only at h
        exact ih h
    · have hb' : begins opening (c :: rest) = false := by
        cases hx : begins opening (c :: rest) with
        | false => rfl
        | true => exact absurd hx hb
      simp only [fenceSearch, hb', if_false, Bool.false_eq_true] at h
      exact ih h

theorem fenceSearch_none_of_no_close (opening : List Char) {close : List Char}
    (hne : close ≠ []) :
    ∀ {s : List Char}, occursIn close s = false →
    fenceSearch opening close s = none := by
  intro s
  induction s with
  | nil =>
    intro hno
    by_cases hb : begins opening [] = true
    · have hext : extractUpTo close [] = none := by
        have hbc : begins close [] = false := by
          cases close with
          | nil => exact absurd rfl hne
          | cons x xs => simp [begins]
        simp [extractUpTo, hbc]
      simp [fenceSearch, hb, hext]
    · have hb' : begins opening [] = false := by
        cases hx : begins opening [] with
        | false => rfl
        | true => exact absurd hx hb
      simp [fenceSearch, hb']
  | cons c rest ih =>
    intro hno
    have htail := occurs_tail_false hno
    by_cases hb : begins opening (c :: rest) = true
    · have hext : extractUpTo close (List.drop opening.length (c :: rest)) = none := by
        cases hx : extractUpTo close (List.drop opening.length (c :: rest)) with
        | none => rfl
        | some content =>
          obtain ⟨r, hr⟩ := extractUpTo_split hne hx
          have hocc : occursIn close (List.drop opening.length (c :: rest)) = true := by
            rw [hr, List.append_assoc]
            exact occurs_append_right_true content
              (occurs_of_begins (begins_self close r))
          have := occurs_drop_false hno opening.length
          rw [this] at hocc
          exact absurd hocc (by simp)
      simp [fenceSearch, hb, hext, ih htail]
    · have hb' : begins opening (c :: rest) = false := by
        cases hx : begins opening (c :: rest) with
        | false => rfl
        | true => exact absurd hx hb
      simp [fenceSearch, hb', ih htail]

theorem pyStrip_no_occurs {pat s : List Char} (h : occursIn pat s = false) :
    occursIn pat (pyStrip s) = false := by
  have h1 : occursIn pat (s.dropWhile isPySpace) = false := by
    have hsplit : s.takeWhile isPySpace ++ s.dropWhile isPySpace = s :=
      List.takeWhile_append_dropWhile _ _
    rw [← hsplit] at h
    exact occurs_append_right_false h
  set u := s.dropWhile isPySpace with hu
  have hdecomp : u = pyStrip s ++ (u.reverse.takeWhile isPySpace).reverse := by
    have hsp : u.reverse.takeWhile isPySpace ++ u.reverse.dropWhile isPySpace = u.reverse :=
      List.takeWhile_append_dropWhile _ _
    calc u = u.reverse.reverse := by simp
    _ = (u.reverse.takeWhile isPySpace ++ u.reverse.dropWhile isPySpace).reverse := by
          rw [hsp]
    _ = (u.reverse.dropWhile isPySpace).reverse ++ (u.reverse.takeWhile isPySpace).reverse := by
          rw [List.reverse_append]
    _ = pyStrip s ++ (u.reverse.takeWhile isPySpace).reverse := rfl
  rw [hdecomp] at h1
  exact occurs_append_left_false h1

/-! ### Exact extraction for a wrapped fence (claim C4 machinery) -/

theorem extractUpTo_exact {close : List Char} :
    ∀ t : List Char, (∀ k, k < t.length → begins close (t.drop k ++ close) = false) →
    extractUpTo close (t ++ close) = some t := by
  intro t
  induction t with
  | nil =>
    intro _
    have : begins close ([] ++ close) = true := by
      have := begins_self close ([] : List Char)
      simpa using this
    simpa using extractUpTo_of_begins this
  | cons c t' ih =>
    intro h
    have h0 : begins close ((c :: t') ++ close) = false := by
      have := h 0 (by simp)
      simpa using this
    have hrec : extractUpTo close (t' ++ close) = some t' := by
      apply ih
      intro k hk
      have := h (k + 1) (by simpa using Nat.succ_lt_succ hk)
      simpa using this
    have hcons : (c :: t') ++ close = c :: (t' ++ close) := by simp
    rw [hcons]
    rw [hcons] at h0
    simp [extractUpTo, h0, hrec]

theorem closeMark_chars : closeMark = '\n' :: btick :: btick :: btick :: [] := by
  decide

/-- The close delimiter has no nontrivial self-overlap, so the first
occurrence of `closeMark` in `t ++ closeMark` with `t` free of it is at
position `t.length`. -/
theorem closeMark_no_straddle {t : List Char} (h : occursIn closeMark t = false) :
    ∀ k, k < t.length → begins closeMark (t.drop k ++ closeMark) = false := by
  intro k hk
  have hu : occursIn closeMark (t.drop k) = false := occurs_drop_false h k
  have hne : t.drop k ≠ [] := by
    intro hnil
    have : t.length ≤ k := List.drop_eq_nil_iff.mp hnil
    omega
  have hb1 : (btick == '\n') = false := by decide
  cases hdk : t.drop k with
  | nil => exact absurd hdk hne
  | cons a u1 =>
    cases u1 with
    | nil =>
      rw [closeMark_chars]
      simp [begins, hb1]
    | cons b u2 =>
      cases u2 with
      | nil =>
        rw [closeMark_chars]
        simp [begins, hb1]
      | cons c u3 =>
        cases u3 with
        | nil =>
          rw [closeMark_chars]
          simp [begins, hb1]
        | cons d u4 =>
          rw [hdk] at hu
          have hbu : begins closeMark (a :: b :: c :: d :: u4) = false := by
            simp only [occursIn, Bool.or_eq_false_iff] at hu
            exact hu.1
          rw [closeMark_chars] at hbu ⊢
          simp only [begins, List.cons_append, Bool.and_eq_false_iff] at hbu ⊢
          rcases hbu with h1 | h2
          · exact Or.inl h1
          · rcases h2 with h2 | h3
            · exact Or.inr (Or.inl h2)
            · rcases h3 with h3 | h4
              · exact Or.inr (Or.inr (Or.inl h3))
              · rcases h4 with h4 | h5
                · exact Or.inr (Or.inr (Or.inr (Or.inl h4)))
                · exact absurd h5 (by simp [begins])

theorem fenceSearch_at_start {opening close s content : List Char}
    (hbeg : begins opening s = true)
    (hext : extractUpTo close (List.drop opening.length s) = some content) :
    fenceSearch opening close s = some content := by
  cases s with
  | nil =>
    simp only [fenceSearch, hbeg, if_true]
    simpa using hext
  | cons c rest => simp [fenceSearch, hbeg, hext]

/-! ### Claims about the Sanitizer (C3, C4, C8) -/

theorem closeMark_ne_nil : closeMark ≠ [] := by decide

theorem clean_fixes_of_no_close {s : List Char} (hs : occursIn closeMark s = false) :
    clean_html_response s = s := by
  unfold clean_html_response
  rw [fenceSearch_none_of_no_close htmlOpen closeMark_ne_nil hs,
      fenceSearch_none_of_no_close jsonOpen closeMark_ne_nil hs]

/-- C3: the sanitizer `clean_html_response` is idempotent — applying it
twice gives the same result as applying it once, for every input text. -/
theorem clean_html_response_idem (x : List Char) :
    clean_html_response (clean_html_response x) = clean_html_response x := by
  rcases hh : fenceSearch htmlOpen closeMark x with _ | c
  · rcases hj : fenceSearch jsonOpen closeMark x with _ | c
    · have hx : clean_html_response x = x := by
        unfold clean_html_response
        rw [hh, hj]
      rw [hx]
      exact hx
    · have hval : clean_html_response x = pyStrip c := by
        unfold clean_html_response
        rw [hh, hj]
      have hnc : occursIn closeMark c = false :=
        fenceSearch_some_no_close jsonOpen closeMark_ne_nil hj
      rw [hval]
      exact clean_fixes_of_no_close (pyStrip_no_occurs hnc)
  · have hval : clean_html_response x = pyStrip c := by
      unfold clean_html_response
      rw [hh]
    have hnc : occursIn closeMark c = false :=
      fenceSearch_some_no_close htmlOpen closeMark_ne_nil hh
    rw [hval]
    exact clean_fixes_of_no_close (pyStrip_no_occurs hnc)

/-- C8: the sanitizer first attempts the html fence; only when no html
fence matches does it attempt the json fence; when neither matches it
returns the input unchanged (not an error). -/
theorem clean_html_response_order (text : List Char) :
    (∀ c, fenceSearch htmlOpen closeMark text = some c →
        clean_html_response text = pyStrip c)
    ∧ (fenceSearch htmlOpen closeMark text = none →
        ∀ c, fenceSearch jsonOpen closeMark text = some c →
        clean_html_response text = pyStrip c)
    ∧ (fenceSearch htmlOpen closeMark text = none →
        fenceSearch jsonOpen closeMark text = none →
        clean_html_response text = text) := by
  refine ⟨?_, ?_, ?_⟩
  · intro c hc
    unfold clean_html_response
    rw [hc]
  · intro hn c hc
    unfold clean_html_response
    rw [hn, hc]
  · intro hn hj
    unfold clean_html_response
    rw [hn, hj]

/-- Witness for C8 at a fence-free input: the text comes back unchanged. -/
theorem clean_html_response_order_witness :
    clean_html_response (strLit "plain text") = strLit "plain text" :=
  (clean_html_response_order (strLit "plain text")).2.2 (by decide) (by decide)

/-- C4 (amended): sanitizing `htmlOpen ++ t ++ closeMark` recovers
`t` stripped of surrounding whitespace, PROVIDED the inner text `t` does
not itself contain the closing delimiter. -/
theorem clean_html_fence_roundtrip (t : List Char)
    (h : occursIn closeMark t = false) :
    clean_html_response (htmlOpen ++ t ++ closeMark) = pyStrip t := by
  have hext : extractUpTo closeMark (t ++ closeMark) = some t :=
    extractUpTo_exact t (closeMark_no_straddle h)
  have hfs : fenceSearch htmlOpen closeMark (htmlOpen ++ t ++ closeMark) = some t := by
    apply fenceSearch_at_start
    · rw [List.append_assoc]
      exact begins_self htmlOpen (t ++ closeMark)
    · rw [List.append_assoc, List.drop_left]
      exact hext
  unfold clean_html_response
  rw [hfs]

/-- Witness for C4 (amended) at the spec's own example: sanitizing the
fenced paragraph yields exactly the paragraph. -/
theorem clean_html_fence_roundtrip_witness :
    occursIn closeMark (strLit "<p>Hello</p>") = false
    ∧ clean_html_response (htmlOpen ++ strLit "<p>Hello</p>" ++ closeMark) =
        strLit "<p>Hello</p>" := by
  refine ⟨by decide, ?_⟩
  rw [clean_html_fence_roundtrip (strLit "<p>Hello</p>") (by decide)]
  decide

/-- Counterexample to C4 as stated: for the inner text `"a\n```b"` (which
contains the closing delimiter), the lazy regex stops at the inner
delimiter, so the sanitizer does NOT return the trimmed inner text. -/
theorem clean_html_fence_roundtrip_cex :
    clean_html_response (htmlOpen ++ strLit "a\n```b" ++ closeMark) ≠
      pyStrip (strLit "a\n```b") := by decide

/-! ### Search Query Planner and Context Retriever (app.py lines 177-195) -/

/-- One item of a text-search response; `snippet` is absent when the
JSON object has no `snippet` key (Python `item.get('snippet', '')`
then substitutes the empty string). -/
structure SearchItem where
  snippet : Option (List Char)
deriving DecidableEq

/-- Outcome of one `requests.get` call against the search API: either a
raised `RequestException` (network error / non-2xx via
`raise_for_status`) or a parsed list of result items. -/
inductive SearchOutcome where
  | failure
  | success (items : List SearchItem)
deriving DecidableEq

/-- The `queries_to_try` list built in `get_explanation`, in source
order: most specific first. -/
def queries_to_try (chart_name entry_text : List Char) : List (List Char) :=
  [ strLit "\"" ++ entry_text ++ strLit "\" meaning in \"" ++ chart_name ++
      strLit "\" iceberg chart",
    strLit "\"" ++ entry_text ++ strLit "\" iceberg explanation",
    strLit "\"" ++ entry_text ++ strLit "\" lore" ]

/-- The sentinel context, the initial value of `search_context`. -/
def sentinelContext : List Char := strLit "Web search failed or returned no results."

/-- `[item.get('snippet', '') for item in items]`. -/
def snippetsOf (items : List SearchItem) : List (List Char) :=
  items.map (fun it => it.snippet.getD [])

/-- Python `" ".join`. -/
def joinSpace : List (List Char) → List Char
  | [] => []
  | [s] => s
  | s :: t :: rest => s ++ ' ' :: joinSpace (t :: rest)

/-- The items a query yields: an empty list when the request failed. -/
def itemsOf (search : List Char → SearchOutcome) (q : List Char) : List SearchItem :=
  match search q with
  | SearchOutcome.failure => []
  | SearchOutcome.success items => items

/-- The query loop of `get_explanation`: try each query in order; on a
request failure continue; break at the first non-empty snippet LIST
(Python `if snippets:` — list truthiness, satisfied by any non-empty
item list even when every snippet string is empty); if the loop
exhausts, `search_context` keeps its sentinel value. -/
def retrieveContext (search : List Char → SearchOutcome) : List (List Char) → List Char
  | [] => sentinelContext
  | q :: qs =>
    match search q with
    | SearchOutcome.failure => retrieveContext search qs
    | SearchOutcome.success items =>
      if (snippetsOf items).isEmpty then retrieveContext search qs
      else joinSpace (snippetsOf items)

/-- C7: for every pair, the planner yields exactly 3 queries, in the
fixed specificity order given by the spec templates. -/
theorem queries_to_try_spec (chart_name entry_text : List Char) :
    (queries_to_try chart_name entry_text).length = 3
    ∧ queries_to_try chart_name entry_text =
      [ strLit "\"" ++ entry_text ++ strLit "\" meaning in \"" ++ chart_name ++
          strLit "\" iceberg chart",
        strLit "\"" ++ entry_text ++ strLit "\" iceberg explanation",
        strLit "\"" ++ entry_text ++ strLit "\" lore" ] :=
  ⟨rfl, rfl⟩

theorem retrieveContext_sentinel (search : List Char → SearchOutcome) :
    ∀ qs : List (List Char), (∀ q ∈ qs, itemsOf search q = []) →
    retrieveContext search qs = sentinelContext := by
  intro qs
  induction qs with
  | nil => intro _; rfl
  | cons q rest ih =>
    intro h
    have hq : itemsOf search q = [] := h q (by simp)
    have hrest : ∀ p ∈ rest, itemsOf search p = [] := fun p hp => h p (by simp [hp])
    cases hs : search q with
    | failure => simp [retrieveContext, hs, ih hrest]
    | success items =>
      have : items = [] := by
        have := hq
        rw [itemsOf, hs] at this
        exact this
      subst this
      simp [retrieveContext, hs, snippetsOf, ih hrest]

theorem retrieveContext_first (search : List Char → SearchOutcome) :
    ∀ (pre : List (List Char)) (q : List Char) (post : List (List Char)),
    (∀ p ∈ pre, itemsOf search p = []) → itemsOf search q ≠ [] →
    retrieveContext search (pre ++ q :: post) =
      joinSpace (snippetsOf (itemsOf search q)) := by
  intro pre
  induction pre with
  | nil =>
    intro q post _ hq
    cases hs : search q with
    | failure =>
      rw [itemsOf, hs] at hq
      exact absurd rfl hq
    | success items =>
      rw [itemsOf, hs] at hq
      cases items with
      | nil => exact absurd rfl hq
      | cons it rest =>
        simp only [List.nil_append]
        rw [itemsOf, hs]
        simp [retrieveContext, hs, snippetsOf]
  | cons p pre' ih =>
    intro q post hpre hq
    have hp : itemsOf search p = [] := hpre p (by simp)
    have hpre' : ∀ r ∈ pre', itemsOf search r = [] := fun r hr => hpre r (by simp [hr])
    cases hs : search p with
    | failure =>
      simp only [List.cons_append]
      simp [retrieveContext, hs, ih q post hpre' hq]
    | success items =>
      have : items = [] := by
        have := hp
        rw [itemsOf, hs] at this
        exact this
      subst this
      simp only [List.cons_append]
      simp [retrieveContext, hs, snippetsOf, ih q post hpre' hq]

/-- C1 (amended): over the three planned queries, the retriever returns
the sentinel when every query fails or yields an empty item list;
otherwise it stops at the first query whose response has at least one
item — even if every snippet string of that response is empty — and
returns exactly that query's snippets joined by single spaces. -/
theorem retrieveContext_first_query (search : List Char → SearchOutcome)
    (chart_name entry_text : List Char) :
    ((∀ q ∈ queries_to_try chart_name entry_text, itemsOf search q = []) →
        retrieveContext search (queries_to_try chart_name entry_text) = sentinelContext)
    ∧ (∀ (pre : List (List Char)) (q : List Char) (post : List (List Char)),
        queries_to_try chart_name entry_text = pre ++ q :: post →
        (∀ p ∈ pre, itemsOf search p = []) → itemsOf search q ≠ [] →
        retrieveContext search (queries_to_try chart_name entry_text) =
          joinSpace (snippetsOf (itemsOf search q))) := by
  constructor
  · exact retrieveContext_sentinel search (queries_to_try chart_name entry_text)
  · intro pre q post hsplit hpre hq
    rw [hsplit]
    exact retrieveContext_first search pre q post hpre hq

/-- A search world for the C1 witness: the second planned query returns
two items with snippets `foo` and `bar`; the other queries fail. -/
def searchTwo : List Char → SearchOutcome := fun q =>
  if q = strLit "\"e\" iceberg explanation" then
    SearchOutcome.success [SearchItem.mk (some (strLit "foo")), SearchItem.mk (some (strLit "bar"))]
  else SearchOutcome.failure

/-- Witness for C1 (amended): with the first query failing and the
second yielding two snippets, the context is the second query's
snippets joined by one space. -/
theorem retrieveContext_first_query_witness :
    retrieveContext searchTwo (queries_to_try (strLit "c") (strLit "e")) =
      strLit "foo bar" := by
  have h := (retrieveContext_first_query searchTwo (strLit "c") (strLit "e")).2
    [strLit "\"e\" meaning in \"c\" iceberg chart"]
    (strLit "\"e\" iceberg explanation")
    [strLit "\"e\" lore"]
    (by decide) (by decide) (by decide)
  rw [h]
  decide

/-- A search world for the C1 counterexample: the first planned query
(for chart `c`, entry `e`) yields exactly one item whose `snippet`
field is missing; every other query fails. -/
def searchEmptySnippet : List Char → SearchOutcome := fun q =>
  if q = strLit "\"e\" meaning in \"c\" iceberg chart" then
    SearchOutcome.success [SearchItem.mk none]
  else SearchOutcome.failure

/-- Counterexample to C1 as stated: no planned query yields a non-empty
snippet (the only item has an empty snippet string), yet the retriever
does NOT return the sentinel — it stops at the first query because the
code tests list truthiness of `snippets`, not snippet non-emptiness. -/
theorem retrieveContext_cex :
    ((queries_to_try (strLit "c") (strLit "e")).all
        (fun q => (snippetsOf (itemsOf searchEmptySnippet q)).all List.isEmpty)) = true
    ∧ retrieveContext searchEmptySnippet (queries_to_try (strLit "c") (strLit "e")) ≠
        sentinelContext := by decide

/-! ### Image Resolver (app.py lines 197-216) -/

/-- One image-search result item; `link` is absent when the item has no
`link` key (`item.get('link')` gives `None`). -/
structure ImageItem where
  link : Option (List Char)
deriving DecidableEq

/-- Outcome of the image-mode search request. -/
inductive ImageSearchOutcome where
  | failure
  | success (items : List ImageItem)
deriving DecidableEq

/-- Outcome of one `requests.head(link, timeout=2)` probe: a raised
`RequestException` (timeout / connection error) or an HTTP status. -/
inductive ProbeOutcome where
  | error
  | status (code : Nat)
deriving DecidableEq

/-- The image search query `f'"{entry_text}"'`. -/
def quoteQuery (entry_text : List Char) : List Char :=
  strLit "\"" ++ entry_text ++ strLit "\""

/-- The candidate-probing loop: skip items whose link is missing or
empty (`if not link: continue`), treat probe exceptions as non-fatal,
and take the first link whose probe status is exactly 200. -/
def probeScan (probe : List Char → ProbeOutcome) : List ImageItem → Option (List Char)
  | [] => none
  | it :: rest =>
    match it.link with
    | none => probeScan probe rest
    | some l =>
      if l = [] then probeScan probe rest
      else
        match probe l with
        | ProbeOutcome.error => probeScan probe rest
        | ProbeOutcome.status c =>
          if c = 200 then some l else probeScan probe rest

/-- The whole image-resolution stage: issue the image search for
`"<entry_text>"` (quoted); on request failure `image_url` stays `None`;
otherwise scan the returned candidates in rank order. -/
def resolveImage (imageSearch : List Char → ImageSearchOutcome)
    (probe : List Char → ProbeOutcome) (entry_text : List Char) : Option (List Char) :=
  match imageSearch (quoteQuery entry_text) with
  | ImageSearchOutcome.failure => none
  | ImageSearchOutcome.success items => probeScan probe items

/-- The items of an image-search outcome (empty on failure). -/
def itemsOfImage : ImageSearchOutcome → List ImageItem
  | ImageSearchOutcome.failure => []
  | ImageSearchOutcome.success items => items

/-- Does a candidate item pass the liveness gate of the code: a present,
non-empty link whose HEAD probe answers status exactly 200? -/
def passesProbe (probe : List Char → ProbeOutcome) (it : ImageItem) : Bool :=
  match it.link with
  | none => false
  | some l =>
    if l = [] then false
    else
      match probe l with
      | ProbeOutcome.error => false
      | ProbeOutcome.status c => decide (c = 200)

theorem passesProbe_true_elim {probe : List Char → ProbeOutcome} {it : ImageItem}
    (h : passesProbe probe it = true) :
    ∃ l, it.link = some l ∧ l ≠ [] ∧ probe l = ProbeOutcome.status 200 := by
  cases hl : it.link with
  | none => simp [passesProbe, hl] at h
  | some l =>
    by_cases hnil : l = []
    · simp [passesProbe, hl, hnil] at h
    · cases hp : probe l with
      | error => simp [passesProbe, hl, hnil, hp] at h
      | status c =>
        simp only [passesProbe, hl, if_neg hnil, hp, decide_eq_true_eq] at h
        exact ⟨l, rfl, hnil, by rw [hp, h]⟩

theorem probeScan_eq_none_iff (probe : List Char → ProbeOutcome) :
    ∀ items : List ImageItem,
    probeScan probe items = none ↔ ∀ it ∈ items, passesProbe probe it = false := by
  intro items
  induction items with
  | nil => simp [probeScan]
  | cons it rest ih =>
    rw [List.forall_mem_cons]
    cases hl : it.link with
    | none => simp [probeScan, passesProbe, hl, ih]
    | some l =>
      by_cases hnil : l = []
      · subst hnil
        simp [probeScan, passesProbe, hl, ih]
      · cases hp : probe l with
        | error => simp [probeScan, passesProbe, hl, hnil, hp, ih]
        | status c =>
          by_cases hc : c = 200
          · subst hc
            simp [probeScan, passesProbe, hl, hnil, hp]
          · simp [probeScan, passesProbe, hl, hnil, hp, hc, ih]

theorem probeScan_first (probe : List Char → ProbeOutcome) :
    ∀ (pre : List ImageItem) (it : ImageItem) (post : List ImageItem),
    (∀ p ∈ pre, passesProbe probe p = false) → passesProbe probe it = true →
    probeScan probe (pre ++ it :: post) = it.link := by
  intro pre
  induction pre with
  | nil =>
    intro it post _ hit
    obtain ⟨l, hl, hnil, hp⟩ := passesProbe_true_elim hit
    simp [probeScan, hl, hnil, hp]
  | cons p pre' ih =>
    intro it post hpre hit
    have hp : passesProbe probe p = false := hpre p (by simp)
    have hpre' : ∀ r ∈ pre', passesProbe probe r = false :=
      fun r hr => hpre r (by simp [hr])
    have hrec := ih it post hpre' hit
    cases hl : p.link with
    | none => simpa [probeScan, hl] using hrec
    | some l =>
      by_cases hnil : l = []
      · subst hnil
        simpa [probeScan, hl] using hrec
      · cases hpl : probe l with
        | error => simpa [probeScan, hl, hnil, hpl] using hrec
        | status c =>
          have hc : c ≠ 200 := by
            intro h200
            subst h200
            simp [passesProbe, hl, hnil, hpl] at hp
          simpa [probeScan, hl, hnil, hpl, hc] using hrec

/-- C2 (amended): the Image Resolver returns null iff the image search
fails or no candidate with a present non-empty link gets probe status
EXACTLY 200 (not any 2xx); otherwise it returns the first candidate in
rank order whose probe answers 200, probe failures being non-fatal. -/
theorem resolveImage_spec (imageSearch : List Char → ImageSearchOutcome)
    (probe : List Char → ProbeOutcome) (entry_text : List Char) :
    (resolveImage imageSearch probe entry_text = none ↔
      (imageSearch (quoteQuery entry_text) = ImageSearchOutcome.failure
       ∨ ∀ it ∈ itemsOfImage (imageSearch (quoteQuery entry_text)),
           passesProbe probe it = false))
    ∧ (∀ (pre : List ImageItem) (it : ImageItem) (post : List ImageItem),
        itemsOfImage (imageSearch (quoteQuery entry_text)) = pre ++ it :: post →
        (∀ p ∈ pre, passesProbe probe p = false) → passesProbe probe it = true →
        resolveImage imageSearch probe entry_text = it.link) := by
  cases hs : imageSearch (quoteQuery entry_text) with
  | failure =>
    constructor
    · simp [resolveImage, hs]
    · intro pre it post hsplit _ _
      exact absurd hsplit (by simp [itemsOfImage])
  | success items =>
    have hres : resolveImage imageSearch probe entry_text = probeScan probe items := by
      unfold resolveImage
      rw [hs]
    constructor
    · rw [hres]
      constructor
      · intro h
        exact Or.inr ((probeScan_eq_none_iff probe items).mp h)
      · intro h
        rcases h with h | h
        · exact absurd h (by simp)
        · exact (probeScan_eq_none_iff probe items).mpr h
    · intro pre it post hsplit hpre hit
      have hitems : items = pre ++ it :: post := hsplit
      rw [hres, hitems]
      exact probeScan_first probe pre it post hpre hit

/-- Image-search world for the C2 witness, the spec's scenario 2: five
links; probes of the first four fail (error / 4xx), the fifth answers
200. -/
def imageFive : List Char → ImageSearchOutcome := fun _ =>
  ImageSearchOutcome.success
    [ ImageItem.mk (some (strLit "l1")), ImageItem.mk (some (strLit "l2")),
      ImageItem.mk (some (strLit "l3")), ImageItem.mk (some (strLit "l4")),
      ImageItem.mk (some (strLit "l5")) ]

/-- Probe world for the C2 witness: timeouts for the first three links,
404 for the fourth, 200 for the fifth. -/
def probeFive : List Char → ProbeOutcome := fun l =>
  if l = strLit "l5" then ProbeOutcome.status 200
  else if l = strLit "l4" then ProbeOutcome.status 404
  else ProbeOutcome.error

/-- Witness for C2 (amended): in scenario 2 the resolver returns the
fifth link. -/
theorem resolveImage_spec_witness :
    resolveImage imageFive probeFive (strLit "e") = some (strLit "l5") := by
  have h := (resolveImage_spec imageFive probeFive (strLit "e")).2
    [ ImageItem.mk (some (strLit "l1")), ImageItem.mk (some (strLit "l2")),
      ImageItem.mk (some (strLit "l3")), ImageItem.mk (some (strLit "l4")) ]
    (ImageItem.mk (some (strLit "l5"))) []
    (by decide) (by decide) (by decide)
  rw [h]

/-- Image world for the C2 counterexample: two candidates `a` then `b`. -/
def imageTwo : List Char → ImageSearchOutcome := fun _ =>
  ImageSearchOutcome.success
    [ImageItem.mk (some (strLit "a")), ImageItem.mk (some (strLit "b"))]

/-- Probe world for the C2 counterexample: candidate `a` answers 204 (a
2xx status), candidate `b` answers 200. -/
def probeTwoXX : List Char → ProbeOutcome := fun l =>
  if l = strLit "a" then ProbeOutcome.status 204 else ProbeOutcome.status 200

/-- Counterexample to C2 as stated: the highest-ranked candidate `a`
answers with a 2xx status (204), yet the resolver skips it and returns
`b`, because the code tests `status_code == 200`, not 2xx. -/
theorem resolveImage_cex :
    probeTwoXX (strLit "a") = ProbeOutcome.status 204
    ∧ (200 ≤ 204 ∧ 204 < 300)
    ∧ resolveImage imageTwo probeTwoXX (strLit "e") = some (strLit "b")
    ∧ resolveImage imageTwo probeTwoXX (strLit "e") ≠ some (strLit "a") := by decide

/-- C10: a candidate whose link is missing or empty is skipped without
ending the scan, and any returned link is a non-empty link of some item
whose probe answered 200 — so a linkless candidate is never returned. -/
theorem probeScan_skips (probe : List Char → ProbeOutcome)
    (rest items : List ImageItem) (l : List Char)
    (h : probeScan probe items = some l) :
    probeScan probe (ImageItem.mk none :: rest) = probeScan probe rest
    ∧ probeScan probe (ImageItem.mk (some []) :: rest) = probeScan probe rest
    ∧ l ≠ []
    ∧ ∃ it ∈ items, it.link = some l ∧ probe l = ProbeOutcome.status 200 := by
  refine ⟨rfl, by simp [probeScan], ?_⟩
  induction items with
  | nil => simp [probeScan] at h
  | cons it tl ih =>
    revert h
    cases hl : it.link with
    | none =>
      intro h
      obtain ⟨hne, x, hx, hprop⟩ := ih (by simpa [probeScan, hl] using h)
      exact ⟨hne, x, by simp [hx], hprop⟩
    | some l' =>
      by_cases hnil : l' = []
      · subst hnil
        intro h
        obtain ⟨hne, x, hx, hprop⟩ := ih (by simpa [probeScan, hl] using h)
        exact ⟨hne, x, by simp [hx], hprop⟩
      · cases hp : probe l' with
        | error =>
          intro h
          obtain ⟨hne, x, hx, hprop⟩ := ih (by simpa [probeScan, hl, hnil, hp] using h)
          exact ⟨hne, x, by simp [hx], hprop⟩
        | status c =>
          by_cases hc : c = 200
          · subst hc
            intro h
            have hsome : some l' = some l := by simpa [probeScan, hl, hnil, hp] using h
            have hll : l' = l := by injection hsome
            subst hll
            exact ⟨hnil, it, by simp, hl, hp⟩
          · intro h
            obtain ⟨hne, x, hx, hprop⟩ := ih (by simpa [probeScan, hl, hnil, hp, hc] using h)
            exact ⟨hne, x, by simp [hx], hprop⟩

/-- Probe world for the C10 witness. -/
def probeOne : List Char → ProbeOutcome := fun l =>
  if l = strLit "x" then ProbeOutcome.status 200 else ProbeOutcome.error

/-- Item list for the C10 witness: a linkless item, an empty-link item,
then a live one. -/
def itemsSkip : List ImageItem :=
  [ImageItem.mk none, ImageItem.mk (some []), ImageItem.mk (some (strLit "x"))]

/-- Witness for C10: prepending a linkless candidate leaves the scan
result unchanged. -/
theorem probeScan_skips_witness :
    probeScan probeOne (ImageItem.mk none :: itemsSkip) = probeScan probeOne itemsSkip :=
  (probeScan_skips probeOne itemsSkip itemsSkip (strLit "x") (by decide)).1

/-! ### The whole endpoint `get_explanation` (app.py lines 167-231) -/

/-- Outcome of the single `model.generate_content(prompt)` call. -/
inductive ModelOutcome where
  | failure (msg : List Char)
  | success (text : List Char)
deriving DecidableEq

/-- The external collaborators of the endpoint, as response functions:
text search and image search keyed by query string, the HEAD probe
keyed by URL, and the generative model keyed by prompt. -/
structure World where
  textSearch : List Char → SearchOutcome
  imageSearch : List Char → ImageSearchOutcome
  probe : List Char → ProbeOutcome
  model : List Char → ModelOutcome

/-- The configuration read from the environment; a field is `none` when
the variable is absent. -/
structure Config where
  gemini_api_key : Option (List Char)
  custom_search_api_key : Option (List Char)
  custom_search_engine_id : Option (List Char)

/-- The request body; a field is `none` when the key is absent. -/
structure RequestData where
  chart_name : Option (List Char)
  entry_text : Option (List Char)

/-- The three ways the endpoint answers: HTTP 400 with an error message,
HTTP 500 with an error message, or HTTP 200 with the explanation and the
(possibly null) image url. -/
inductive ApiResult where
  | clientError (msg : List Char)
  | serverError (msg : List Char)
  | ok (explanation : List Char) (image_url : Option (List Char))
deriving DecidableEq

/-- Python truthiness of an optional string: `None` and the empty string
are falsy. -/
def truthy : Option (List Char) → Bool
  | none => false
  | some s => !s.isEmpty

/-- The guard `all([chart_name, entry_text, GEMINI_API_KEY,
CUSTOM_SEARCH_API_KEY, CUSTOM_SEARCH_ENGINE_ID])`. -/
def requiredPresent (cfg : Config) (data : RequestData) : Bool :=
  truthy data.chart_name && truthy data.entry_text && truthy cfg.gemini_api_key &&
  truthy cfg.custom_search_api_key && truthy cfg.custom_search_engine_id

/-- The prompt f-string handed to the generative model. -/
def buildPrompt (entry_text chart_name search_context : List Char) : List Char :=
  strLit "You are an expert explainer of internet culture. Provide a clear, concise explanation for the iceberg entry: "
  ++ [squote] ++ entry_text ++ [squote]
  ++ strLit " from the " ++ [squote] ++ chart_name ++ [squote]
  ++ strLit " iceberg chart. Use this web search context: "
  ++ [squote] ++ search_context ++ [squote]
  ++ strLit ". Format your response in simple HTML using paragraphs (<p>) and bold tags (<b>)."

/-- The prompt actually built by a run of the endpoint: it embeds the
context retrieved over the planned queries. -/
def pipelinePrompt (data : RequestData) (w : World) : List Char :=
  buildPrompt (data.entry_text.getD []) (data.chart_name.getD [])
    (retrieveContext w.textSearch
      (queries_to_try (data.chart_name.getD []) (data.entry_text.getD [])))

/-- The `/api/explain` endpoint body: validate inputs and configuration,
retrieve context over the planned queries, resolve an image, invoke the
model once, and answer 200 with the sanitized explanation — or 500 when
the model call raises. -/
def get_explanation (cfg : Config) (data : RequestData) (w : World) : ApiResult :=
  if !(requiredPresent cfg data) then
    ApiResult.clientError (strLit "Missing data or API key configuration.")
  else
    match w.model (pipelinePrompt data w) with
    | ModelOutcome.success text =>
      ApiResult.ok (clean_html_response text)
        (resolveImage w.imageSearch w.probe (data.entry_text.getD []))
    | ModelOutcome.failure msg =>
      ApiResult.serverError (strLit "Failed to process AI explanation: " ++ msg)

theorem retrieveContext_all_failure (w : World)
    (hfail : ∀ q, w.textSearch q = SearchOutcome.failure) (qs : List (List Char)) :
    retrieveContext w.textSearch qs = sentinelContext :=
  retrieveContext_sentinel w.textSearch qs
    (fun q _ => by rw [itemsOf, hfail q])

/-- C5: single-request fault isolation.  A failed context query is
treated as zero snippets and the loop advances; when every context query
fails, the endpoint still answers 200, with the prompt built from the
sentinel context and the Image Resolver still consulted; when the image
search fails, the endpoint still answers 200 with a null image and the
explanation built from the actually retrieved context. -/
theorem pipeline_fault_isolation :
    (∀ (search : List Char → SearchOutcome) (q : List Char) (qs : List (List Char)),
      search q = SearchOutcome.failure →
      retrieveContext search (q :: qs) = retrieveContext search qs)
    ∧ (∀ (cfg : Config) (data : RequestData) (w : World),
      requiredPresent cfg data = true →
      (∀ q, w.textSearch q = SearchOutcome.failure) →
      ∀ text, w.model (buildPrompt (data.entry_text.getD []) (data.chart_name.getD [])
          sentinelContext) = ModelOutcome.success text →
      get_explanation cfg data w =
        ApiResult.ok (clean_html_response text)
          (resolveImage w.imageSearch w.probe (data.entry_text.getD [])))
    ∧ (∀ (cfg : Config) (data : RequestData) (w : World),
      requiredPresent cfg data = true →
      w.imageSearch (quoteQuery (data.entry_text.getD [])) = ImageSearchOutcome.failure →
      ∀ text, w.model (pipelinePrompt data w) = ModelOutcome.success text →
      get_explanation cfg data w = ApiResult.ok (clean_html_response text) none) := by
  refine ⟨?_, ?_, ?_⟩
  · intro search q qs hq
    simp [retrieveContext, hq]
  · intro cfg data w hv hfail text hm
    have hprompt : pipelinePrompt data w =
        buildPrompt (data.entry_text.getD []) (data.chart_name.getD []) sentinelContext := by
      unfold pipelinePrompt
      rw [retrieveContext_all_failure w hfail]
    unfold get_explanation
    rw [hv]
    simp only [Bool.not_true, Bool.false_eq_true, if_false]
    rw [hprompt, hm]
  · intro cfg data w hv himg text hm
    have hnone : resolveImage w.imageSearch w.probe (data.entry_text.getD []) = none := by
      unfold resolveImage
      rw [himg]
    unfold get_explanation
    rw [hv]
    simp only [Bool.not_true, Bool.false_eq_true, if_false]
    rw [hm, hnone]

/-- A fully degraded world: every search request fails, every probe
errors, but the model answers `x`. -/
def worldDegraded : World where
  textSearch := fun _ => SearchOutcome.failure
  imageSearch := fun _ => ImageSearchOutcome.failure
  probe := fun _ => ProbeOutcome.error
  model := fun _ => ModelOutcome.success (strLit "x")

/-- A fully present configuration. -/
def cfgFull : Config where
  gemini_api_key := some (strLit "g")
  custom_search_api_key := some (strLit "k")
  custom_search_engine_id := some (strLit "i")

/-- A fully present request body. -/
def dataFull : RequestData where
  chart_name := some (strLit "c")
  entry_text := some (strLit "e")

/-- Witness for C5: with every search failing, the endpoint still
answers 200 with the model output and a null image url. -/
theorem pipeline_fault_isolation_witness :
    get_explanation cfgFull dataFull worldDegraded = ApiResult.ok (strLit "x") none := by
  have h := pipeline_fault_isolation.2.1 cfgFull dataFull worldDegraded
    (by decide) (fun q => rfl) (strLit "x") rfl
  rw [h]
  decide

/-- C6: once inputs and configuration are present, a run ends in exactly
one of two complete shapes: a 200 result carrying the sanitized
explanation and the image url, or — when the single model invocation
fails — a 500 `GenerationFailure` answer carrying only an error message,
never a partial response. -/
theorem generation_failure_terminal (cfg : Config) (data : RequestData) (w : World)
    (hv : requiredPresent cfg data = true) :
    (∀ msg, w.model (pipelinePrompt data w) = ModelOutcome.failure msg →
      get_explanation cfg data w =
        ApiResult.serverError (strLit "Failed to process AI explanation: " ++ msg))
    ∧ ((∃ text, w.model (pipelinePrompt data w) = ModelOutcome.success text ∧
          get_explanation cfg data w =
            ApiResult.ok (clean_html_response text)
              (resolveImage w.imageSearch w.probe (data.entry_text.getD [])))
       ∨ (∃ msg, w.model (pipelinePrompt data w) = ModelOutcome.failure msg ∧
          get_explanation cfg data w =
            ApiResult.serverError (strLit "Failed to process AI explanation: " ++ msg))) := by
  constructor
  · intro msg hm
    unfold get_explanation
    rw [hv]
    simp only [Bool.not_true, Bool.false_eq_true, if_false]
    rw [hm]
  · cases hm : w.model (pipelinePrompt data w) with
    | failure msg =>
      refine Or.inr ⟨msg, rfl, ?_⟩
      unfold get_explanation
      rw [hv]
      simp only [Bool.not_true, Bool.false_eq_true, if_false]
      rw [hm]
    | success text =>
      refine Or.inl ⟨text, rfl, ?_⟩
      unfold get_explanation
      rw [hv]
      simp only [Bool.not_true, Bool.false_eq_true, if_false]
      rw [hm]

/-- A world whose model call raises. -/
def worldModelDown : World where
  textSearch := fun _ => SearchOutcome.failure
  imageSearch := fun _ => ImageSearchOutcome.failure
  probe := fun _ => ProbeOutcome.error
  model := fun _ => ModelOutcome.failure (strLit "boom")

/-- Witness for C6: a failing model yields the terminal 500 answer with
no explanation and no image url. -/
theorem generation_failure_terminal_witness :
    get_explanation cfgFull dataFull worldModelDown =
      ApiResult.serverError (strLit "Failed to process AI explanation: " ++ strLit "boom") :=
  (generation_failure_terminal cfgFull dataFull worldModelDown (by decide)).1
    (strLit "boom") rfl

/-- C9: when the chart name, the entry text, or any of the three
configuration values is absent, the endpoint answers 400 with the
missing-data message — and the answer does not depend on the outside
world at all, so no search, probe, or model call can influence it. -/
theorem missing_input_short_circuit (cfg : Config) (data : RequestData)
    (h : data.chart_name = none ∨ data.entry_text = none ∨ cfg.gemini_api_key = none
         ∨ cfg.custom_search_api_key = none ∨ cfg.custom_search_engine_id = none) :
    ∀ w : World, get_explanation cfg data w =
      ApiResult.clientError (strLit "Missing data or API key configuration.") := by
  intro w
  have hfalse : requiredPresent cfg data = false := by
    rcases h with h | h | h | h | h <;>
      simp [requiredPresent, truthy, h]
  unfold get_explanation
  rw [hfalse]
  simp

/-- A request body missing the chart name. -/
def dataNoChart : RequestData where
  chart_name := none
  entry_text := some (strLit "e")

/-- Witness for C9: a missing chart name short-circuits to the 400
answer in an arbitrary world. -/
theorem missing_input_short_circuit_witness :
    get_explanation cfgFull dataNoChart worldDegraded =
      ApiResult.clientError (strLit "Missing data or API key configuration.") :=
  missing_input_short_circuit cfgFull dataNoChart (Or.inl rfl) worldDegraded
